import Mathlib

/-!
# Verification of the WebSocket transport adapter and connection lifecycle
# manager (`jsonrpc/websocket.go`)

Shallow embedding of `src/jsonrpc/websocket.go`.  Byte strings are
`List Nat` (each element a byte value).  Go errors are modelled by
`GoError`: the bytes of `Error()` together with an optional websocket
close-status (present exactly when `errors.As(err, &websocket.CloseError)`
succeeds).  The transport connection (`websocket.Conn` of the external
library, assumed correct) is modelled by `Conn`: a script of incoming
fetch results consumed one per `conn.Read`, a list of sent messages, and
a script of outcomes for successive `conn.Write` calls.
-/

/-- Bytes of `Error()` plus the close status recovered by
`errors.As(err, &websocket.CloseError)` (`none` when the error is not a
close error). -/
structure GoError where
  message : List Nat
  closeStatus : Option Int
deriving DecidableEq, Repr

deriving instance DecidableEq for Except

/-- `websocket.StatusInternalError` of the transport library. -/
def StatusInternalError : Int := 1011

/-- `websocket.MessageText` message type tag of the transport library. -/
def MessageText : Nat := 1

/-- Model of the external `websocket.Conn`: `incoming` scripts the results
of successive `conn.Read` calls (fetching from an exhausted script reports
the peer's normal close handshake), `sent` records messages written as
(type, payload) pairs, `writeScript` scripts failures of successive
`conn.Write` calls (an exhausted script means writes succeed), and
`readLimit` records the value installed by `SetReadLimit`. -/
structure Conn where
  incoming : List (Except GoError (List Nat))
  sent : List (Nat × List Nat)
  writeScript : List (Option GoError)
  readLimit : Int
deriving DecidableEq, Repr

/-- The close error reported once the scripted incoming traffic is
exhausted: the peer completed a normal close handshake (status 1000). -/
def endOfStreamError : GoError := { message := [], closeStatus := some 1000 }

/-- `conn.Read(ctx)`: deliver the next scripted fetch result.  On an
exhausted script the peer has closed: a close error with status 1000. -/
def Conn.read (c : Conn) : Except GoError (List Nat) × Conn :=
  match c.incoming with
  | [] => (Except.error endOfStreamError, c)
  | r :: rest => (r, { c with incoming := rest })

/-- `conn.Write(ctx, typ, p)`: consume the next scripted outcome; on
success append the message to `sent`. -/
def Conn.write (c : Conn) (typ : Nat) (p : List Nat) : Option GoError × Conn :=
  match c.writeScript with
  | [] => (none, { c with sent := c.sent ++ [(typ, p)] })
  | none :: rest => (none, { c with sent := c.sent ++ [(typ, p)], writeScript := rest })
  | some e :: rest => (some e, { c with writeScript := rest })

/-- `WebsocketConnParams` (websocket.go lines 93-98).  `ReadLimit` is an
`int64`; `WriteDuration` is a Go `time.Duration`, an `int64` count of
nanoseconds. -/
structure WebsocketConnParams where
  ReadLimit : Int
  WriteDuration : Int
deriving DecidableEq, Repr

/-- `DefaultWebsocketConnParams` (lines 100-105): 32 MiB read limit,
5-second (5e9 ns) write duration. -/
def DefaultWebsocketConnParams : WebsocketConnParams :=
  { ReadLimit := 32 * 1024 * 1024, WriteDuration := 5 * 1000000000 }

/-- The `Websocket` handler struct (lines 16-21).  The `rpc`, `log` and
`listener` collaborators are external; only the configuration state is
carried here. -/
structure Websocket where
  connParams : WebsocketConnParams
deriving DecidableEq, Repr

/-- `NewWebsocket` (lines 23-32): installs the default connection params. -/
def NewWebsocket : Websocket :=
  { connParams := DefaultWebsocketConnParams }

/-- `Websocket.WithConnParams` (lines 34-38).  The source comment claims it
"sanity checks and applies the provided params", but the body is the bare
assignment `ws.connParams = p` with no check of any kind. -/
def Websocket.WithConnParams (ws : Websocket) (p : WebsocketConnParams) : Websocket :=
  { ws with connParams := p }

/-- The stream adapter `websocketConn` (lines 107-113).  `buf` is the
pending-bytes buffer: `none` models a nil Go slice (empty pending
buffer). The `ctx` and `listener` fields play no role in `Read`/`Write`
and are omitted. -/
structure websocketConn where
  conn : Conn
  buf : Option (List Nat)
  params : WebsocketConnParams
deriving DecidableEq, Repr

/-- `newWebsocketConn` (lines 115-123): installs the read limit on the
transport connection (`conn.SetReadLimit`) and starts with a nil pending
buffer. -/
def newWebsocketConn (conn : Conn) (params : WebsocketConnParams) : websocketConn :=
  { conn := { conn with readLimit := params.ReadLimit }, buf := none, params := params }

/-- Result of one `websocketConn.Read` call: the returned byte count `n`,
the bytes copied into the caller's buffer, the returned error, and the
number of messages fetched from the transport during the call (0 or 1;
a failed `conn.Read` fetches no message). -/
structure ReadOut where
  n : Nat
  delivered : List Nat
  err : Option GoError
  fetched : Nat
deriving DecidableEq, Repr

/-- `websocketConn.Read` (lines 125-142), for a caller buffer of length
`plen`.  If the pending buffer is nil, fetch one message (on fetch error,
`conn.Read` yields nil data, so the Go `return len(wsc.buf), err` returns
0 and the error unmodified).  Then copy `min(len(buf), plen)` bytes:
if the pending bytes exceed the caller buffer, retain the remainder,
otherwise deliver everything and reset the buffer to nil. -/
def websocketConn.Read (wsc : websocketConn) (plen : Nat) : ReadOut × websocketConn :=
  match wsc.buf with
  | none =>
    match wsc.conn.read with
    | (Except.error e, c1) =>
      ({ n := 0, delivered := [], err := some e, fetched := 0 },
       { wsc with conn := c1 })
    | (Except.ok m, c1) =>
      if m.length > plen then
        ({ n := plen, delivered := m.take plen, err := none, fetched := 1 },
         { wsc with conn := c1, buf := some (m.drop plen) })
      else
        ({ n := m.length, delivered := m, err := none, fetched := 1 },
         { wsc with conn := c1, buf := none })
  | some b =>
    if b.length > plen then
      ({ n := plen, delivered := b.take plen, err := none, fetched := 0 },
       { wsc with buf := some (b.drop plen) })
    else
      ({ n := b.length, delivered := b, err := none, fetched := 0 },
       { wsc with buf := none })

/-- `websocketConn.Write` (lines 145-157): one `conn.Write` of a
text-typed message containing all of `p`; on failure return `(0, err)`
with the error unmodified, on success return `(len(p), nil)`. -/
def websocketConn.Write (wsc : websocketConn) (p : List Nat) :
    (Nat × Option GoError) × websocketConn :=
  match wsc.conn.write MessageText p with
  | (some e, c1) => ((0, some e), { wsc with conn := c1 })
  | (none, c1) => ((p.length, none), { wsc with conn := c1 })

/-- Accumulated result of a sequence of `websocketConn.Read` calls. -/
structure RunOut where
  out : List Nat
  fetched : Nat
  final : websocketConn
  err : Option GoError
deriving DecidableEq, Repr

/-- Repeated `Read` calls with the given caller-buffer sizes, stopping at
the first error (as the processing core would).  Collects the delivered
bytes and the total number of transport messages fetched. -/
def runRead (wsc : websocketConn) : List Nat → RunOut
  | [] => { out := [], fetched := 0, final := wsc, err := none }
  | k :: ks =>
    let step := wsc.Read k
    match step.1.err with
    | some e => { out := [], fetched := step.1.fetched, final := step.2, err := some e }
    | none =>
      let rest := runRead step.2 ks
      { out := step.1.delivered ++ rest.out, fetched := step.1.fetched + rest.fetched,
        final := rest.final, err := rest.err }

/-- A fresh adapter over a transport that will deliver exactly `msgs`, in
order, then report peer close. -/
def initialWsConn (msgs : List (List Nat)) : websocketConn :=
  newWebsocketConn
    { incoming := msgs.map Except.ok, sent := [], writeScript := [], readLimit := 0 }
    DefaultWebsocketConnParams

/-- Control-flow events of the `ServeHTTP` run loop (lines 60-70):
`handleCall i` is the `ws.rpc.HandleReader` call consuming request `i`,
`notifyCall i` the `wsc.listener.OnNewRequest("any")` call of cycle `i`,
`writeCall i` the `wsc.Write(resp)` call sending response `i`. -/
inductive LoopEvent where
  | handleCall (i : Nat)
  | notifyCall (i : Nat)
  | writeCall (i : Nat)
deriving DecidableEq, Repr

/-- Cycle index of a loop event. -/
def LoopEvent.idx : LoopEvent → Nat
  | .handleCall i => i
  | .notifyCall i => i
  | .writeCall i => i

/-- Occurrence count of an event in a trace. -/
def countEv (e : LoopEvent) : List LoopEvent → Nat
  | [] => 0
  | x :: xs => (if x = e then 1 else 0) + countEv e xs

/-- The `for` loop of `ServeHTTP` (lines 60-70), with the outcome of
`ws.rpc.HandleReader` on cycle `i` abstracted as `H i` (error, or the
response bytes it produced) and the outcome of `wsc.Write` on cycle `i`
with response `r` abstracted as `W i r`.  Returns the event trace and the
error that broke the loop (`fuel` bounds the observation window; `none`
means the loop was still running).  The body order is exactly the
source's: handle, break on error, notify, write, break on error. -/
def runLoop (H : Nat → Except GoError (List Nat)) (W : Nat → List Nat → Option GoError) :
    Nat → Nat → List LoopEvent × Option GoError
  | 0, _ => ([], none)
  | fuel + 1, i =>
    match H i with
    | Except.error e => ([LoopEvent.handleCall i], some e)
    | Except.ok resp =>
      match W i resp with
      | some e =>
        ([LoopEvent.handleCall i, LoopEvent.notifyCall i, LoopEvent.writeCall i], some e)
      | none =>
        let rest := runLoop H W fuel (i + 1)
        (LoopEvent.handleCall i :: LoopEvent.notifyCall i :: LoopEvent.writeCall i :: rest.1,
         rest.2)

/-- `closeReasonMaxBytes` (line 14). -/
def closeReasonMaxBytes : Nat := 125

/-- Lines 79-82: `errString := err.Error()`; if longer than 125 bytes,
keep the first 125 bytes (`errString[:closeReasonMaxBytes]`, a plain Go
byte-slice, with no regard for UTF-8 boundaries). -/
def truncateCloseReason (msg : List Nat) : List Nat :=
  if msg.length > closeReasonMaxBytes then msg.take closeReasonMaxBytes else msg

/-- `startsWithSeq needle hay`: `needle` is an initial segment of `hay`. -/
def startsWithSeq : List Nat → List Nat → Bool
  | [], _ => true
  | _ :: _, [] => false
  | a :: as, b :: bs => decide (a = b) && startsWithSeq as bs

/-- Go `strings.Contains` on byte strings. -/
def containsSeq (needle : List Nat) : List Nat → Bool
  | [] => needle.isEmpty
  | b :: bs => startsWithSeq needle (b :: bs) || containsSeq needle bs

/-- The bytes of the string literal `"already wrote close"` matched on
line 87. -/
def alreadyWroteClose : List Nat :=
  [97, 108, 114, 101, 97, 100, 121, 32, 119, 114, 111, 116, 101, 32,
   99, 108, 111, 115, 101]

/-- Observable teardown actions of `ServeHTTP` after the loop breaks
(lines 72-90): the info log of a client-initiated close (with the
peer-reported status), the warning log of an internal error, the close
frame actively sent (status and reason), and the error log of a failed
close. -/
inductive TeardownEvent where
  | infoClientClosed (status : Int)
  | warnInternalError (errMsg : List Nat)
  | closeFrame (status : Int) (reason : List Nat)
  | errorCloseFailed (errMsg : List Nat)
deriving DecidableEq, Repr

/-- `true` exactly on error-severity log events. -/
def isErrorLogEv : TeardownEvent → Bool
  | .errorCloseFailed _ => true
  | _ => false

/-- Teardown of `ServeHTTP` (lines 72-90) for terminal error `e`, where
`closeOutcome` is the result of the `wsc.conn.Close(StatusInternalError,
errString)` call when that call is reached.  If `errors.As` recovers a
`websocket.CloseError` (modelled by `e.closeStatus = some s`), log at
info severity with the peer status (`websocket.CloseStatus(err) = s`) and
return.  Otherwise log a warning, close with the internal-error status
and the truncated reason, and if the close itself fails, log at error
severity unless the failure message contains "already wrote close". -/
def serveTeardown (e : GoError) (closeOutcome : Option GoError) : List TeardownEvent :=
  match e.closeStatus with
  | some s => [TeardownEvent.infoClientClosed s]
  | none =>
    TeardownEvent.warnInternalError e.message ::
    TeardownEvent.closeFrame StatusInternalError (truncateCloseReason e.message) ::
    (match closeOutcome with
     | none => []
     | some ce =>
       if containsSeq alreadyWroteClose ce.message then []
       else [TeardownEvent.errorCloseFailed ce.message])

/-- The whole of `ServeHTTP` after a successful upgrade: the run loop
followed, once an error breaks it, by the classified teardown. -/
def ServeHTTP (H : Nat → Except GoError (List Nat)) (W : Nat → List Nat → Option GoError)
    (fuel : Nat) (closeOutcome : Option GoError) :
    List LoopEvent × List TeardownEvent :=
  match runLoop H W fuel 0 with
  | (evs, none) => (evs, [])
  | (evs, some e) => (evs, serveTeardown e closeOutcome)

/-! ## Step lemmas for `websocketConn.Read` -/

theorem read_buf_some_gt (wsc : websocketConn) (b : List Nat) (k : Nat)
    (hb : wsc.buf = some b) (hk : b.length > k) :
    wsc.Read k = ({ n := k, delivered := b.take k, err := none, fetched := 0 },
      { wsc with buf := some (b.drop k) }) := by
  simp [websocketConn.Read, hb, hk]

theorem read_buf_some_le (wsc : websocketConn) (b : List Nat) (k : Nat)
    (hb : wsc.buf = some b) (hk : ¬ b.length > k) :
    wsc.Read k = ({ n := b.length, delivered := b, err := none, fetched := 0 },
      { wsc with buf := none }) := by
  simp [websocketConn.Read, hb, hk]

theorem read_fetch_gt (wsc : websocketConn) (m : List Nat)
    (rest : List (Except GoError (List Nat))) (k : Nat)
    (hb : wsc.buf = none) (hin : wsc.conn.incoming = Except.ok m :: rest)
    (hk : m.length > k) :
    wsc.Read k = ({ n := k, delivered := m.take k, err := none, fetched := 1 },
      { wsc with conn := { wsc.conn with incoming := rest }, buf := some (m.drop k) }) := by
  simp [websocketConn.Read, Conn.read, hb, hin, hk]

theorem read_fetch_le (wsc : websocketConn) (m : List Nat)
    (rest : List (Except GoError (List Nat))) (k : Nat)
    (hb : wsc.buf = none) (hin : wsc.conn.incoming = Except.ok m :: rest)
    (hk : ¬ m.length > k) :
    wsc.Read k = ({ n := m.length, delivered := m, err := none, fetched := 1 },
      { wsc with conn := { wsc.conn with incoming := rest }, buf := none }) := by
  simp [websocketConn.Read, Conn.read, hb, hin, hk]

theorem read_fetch_err (wsc : websocketConn) (e : GoError)
    (rest : List (Except GoError (List Nat))) (k : Nat)
    (hb : wsc.buf = none) (hin : wsc.conn.incoming = Except.error e :: rest) :
    wsc.Read k = ({ n := 0, delivered := [], err := some e, fetched := 0 },
      { wsc with conn := { wsc.conn with incoming := rest } }) := by
  simp [websocketConn.Read, Conn.read, hb, hin]

theorem read_exhausted (wsc : websocketConn) (k : Nat)
    (hb : wsc.buf = none) (hin : wsc.conn.incoming = []) :
    wsc.Read k =
      ({ n := 0, delivered := [], err := some endOfStreamError, fetched := 0 }, wsc) := by
  cases wsc with
  | mk c b pa =>
    simp only at hb hin
    subst hb
    simp [websocketConn.Read, Conn.read, hin]


/-! ## Conservation and drain of `runRead` -/

theorem runRead_cons (wsc : websocketConn) (k : Nat) (ks : List Nat) :
    runRead wsc (k :: ks) =
      match (wsc.Read k).1.err with
      | some e =>
        { out := [], fetched := (wsc.Read k).1.fetched,
          final := (wsc.Read k).2, err := some e }
      | none =>
        { out := (wsc.Read k).1.delivered ++ (runRead (wsc.Read k).2 ks).out,
          fetched := (wsc.Read k).1.fetched + (runRead (wsc.Read k).2 ks).fetched,
          final := (runRead (wsc.Read k).2 ks).final,
          err := (runRead (wsc.Read k).2 ks).err } := rfl

/-- Core induction: starting from any adapter state whose transport will
deliver exactly `msgs` and whose pending buffer is not a non-nil empty
slice, a sequence of reads with positive caller-buffer sizes, long enough
to cover every pending byte plus one call per message, delivers exactly
the pending bytes followed by the messages in order, and fetches exactly
one transport message per element of `msgs`. -/
theorem runRead_drains (sizes : List Nat) :
    ∀ (msgs : List (List Nat)) (wsc : websocketConn),
    wsc.conn.incoming = msgs.map Except.ok →
    wsc.buf ≠ some [] →
    (∀ k ∈ sizes, 1 ≤ k) →
    (wsc.buf.getD []).length + msgs.flatten.length + msgs.length ≤ sizes.length →
    (runRead wsc sizes).out = wsc.buf.getD [] ++ msgs.flatten ∧
    (runRead wsc sizes).fetched = msgs.length := by
  induction sizes with
  | nil =>
    intro msgs wsc h1 _ _ hlen
    simp only [List.length_nil, Nat.le_zero] at hlen
    have hmsgs : msgs = [] := List.length_eq_zero.mp (by omega)
    have hbuf2 : wsc.buf.getD [] = [] := List.length_eq_zero.mp (by omega)
    subst hmsgs
    simp [runRead, hbuf2]
  | cons k ks ih =>
    intro msgs wsc h1 h2 hpos hlen
    have hk1 : 1 ≤ k := hpos k (List.mem_cons_self k ks)
    have hpos2 : ∀ x ∈ ks, 1 ≤ x := fun x hx => hpos x (List.mem_cons_of_mem k hx)
    simp only [List.length_cons] at hlen
    cases hbuf : wsc.buf with
    | some b =>
      have hbne : b ≠ [] := by
        intro h
        exact h2 (by rw [hbuf, h])
      have hblen : 1 ≤ b.length := by
        cases b with
        | nil => exact absurd rfl hbne
        | cons x xs => simp
      rw [hbuf] at hlen
      simp only [Option.getD_some] at hlen
      by_cases hgt : b.length > k
      · rw [runRead_cons, read_buf_some_gt wsc b k hbuf hgt]
        simp only
        have hrec := ih msgs { wsc with buf := some (b.drop k) }
          (by simpa using h1)
          (by
            intro h
            have h3 : b.drop k = [] := by simpa using h
            have h4 := List.length_drop k b
            rw [h3] at h4
            simp at h4
            omega)
          hpos2
          (by
            simp only [Option.getD_some, List.length_drop]
            omega)
        simp only [Option.getD_some] at hrec
        refine ⟨?_, ?_⟩
        · simp only [Option.getD_some, hrec.1]
          rw [← List.append_assoc, List.take_append_drop]
        · simpa using hrec.2
      · rw [runRead_cons, read_buf_some_le wsc b k hbuf hgt]
        simp only
        have hrec := ih msgs { wsc with buf := none }
          (by simpa using h1)
          (by simp)
          hpos2
          (by
            simp only [Option.getD_none, List.length_nil]
            omega)
        simp only [Option.getD_none, List.nil_append] at hrec
        refine ⟨?_, ?_⟩
        · simp only [Option.getD_some, hrec.1]
        · simpa using hrec.2
    | none =>
      rw [hbuf] at hlen
      simp only [Option.getD_none, List.length_nil] at hlen
      cases msgs with
      | nil =>
        simp only [List.map_nil] at h1
        rw [runRead_cons, read_exhausted wsc k hbuf h1]
        simp [hbuf]
      | cons m rest =>
        simp only [List.map_cons] at h1
        simp only [List.flatten_cons, List.length_append, List.length_cons] at hlen
        by_cases hgt : m.length > k
        · rw [runRead_cons, read_fetch_gt wsc m (rest.map Except.ok) k hbuf h1 hgt]
          simp only
          have hrec := ih rest
            { wsc with
                conn := { wsc.conn with incoming := rest.map Except.ok },
                buf := some (m.drop k) }
            (by simp)
            (by
              intro h
              have h3 : m.drop k = [] := by simpa using h
              have h4 := List.length_drop k m
              rw [h3] at h4
              simp at h4
              omega)
            hpos2
            (by
              simp only [Option.getD_some, List.length_drop]
              omega)
          simp only [Option.getD_some] at hrec
          refine ⟨?_, ?_⟩
          · simp only [Option.getD_none, List.nil_append, List.flatten_cons, hrec.1]
            rw [← List.append_assoc, List.take_append_drop]
          · simp only [hrec.2, List.length_cons]
            omega
        · rw [runRead_cons, read_fetch_le wsc m (rest.map Except.ok) k hbuf h1 hgt]
          simp only
          have hrec := ih rest
            { wsc with conn := { wsc.conn with incoming := rest.map Except.ok }, buf := none }
            (by simp)
            (by simp)
            hpos2
            (by
              simp only [Option.getD_none, List.length_nil]
              omega)
          simp only [Option.getD_none, List.nil_append] at hrec
          refine ⟨?_, ?_⟩
          · simp only [Option.getD_none, List.nil_append, List.flatten_cons, hrec.1]
          · simp only [hrec.2, List.length_cons]
            omega

/-- UTF-8 continuation byte. -/
def contByte (b : Nat) : Bool := decide (0x80 ≤ b) && decide (b ≤ 0xBF)

/-- Valid (leading byte, continuations) triple of a 3-byte UTF-8
sequence. -/
def threeByteOk (b c1 c2 : Nat) : Bool :=
  (decide (b = 0xE0) && (decide (0xA0 ≤ c1) && decide (c1 ≤ 0xBF)) && contByte c2) ||
  ((decide (0xE1 ≤ b) && decide (b ≤ 0xEC)) && contByte c1 && contByte c2) ||
  (decide (b = 0xED) && (decide (0x80 ≤ c1) && decide (c1 ≤ 0x9F)) && contByte c2) ||
  ((decide (b = 0xEE) || decide (b = 0xEF)) && contByte c1 && contByte c2)

/-- Valid (leading byte, continuations) quadruple of a 4-byte UTF-8
sequence. -/
def fourByteOk (b c1 c2 c3 : Nat) : Bool :=
  (decide (b = 0xF0) && (decide (0x90 ≤ c1) && decide (c1 ≤ 0xBF)) &&
    contByte c2 && contByte c3) ||
  ((decide (0xF1 ≤ b) && decide (b ≤ 0xF3)) && contByte c1 && contByte c2 && contByte c3) ||
  (decide (b = 0xF4) && (decide (0x80 ≤ c1) && decide (c1 ≤ 0x8F)) &&
    contByte c2 && contByte c3)

/-- Standard UTF-8 validity of a byte sequence (RFC 3629).  Used to state
what a "UTF-8-safe" truncation would have to preserve; the source
performs no such check. -/
def isValidUtf8 : List Nat → Bool
  | [] => true
  | b :: rest =>
    if b ≤ 0x7F then isValidUtf8 rest
    else
      match rest with
      | [] => false
      | c1 :: rest1 =>
        if decide (0xC2 ≤ b) && decide (b ≤ 0xDF) then contByte c1 && isValidUtf8 rest1
        else
          match rest1 with
          | [] => false
          | c2 :: rest2 =>
            if threeByteOk b c1 c2 then isValidUtf8 rest2
            else
              match rest2 with
              | [] => false
              | c3 :: rest3 => fourByteOk b c1 c2 c3 && isValidUtf8 rest3

/-! ## Trace lemmas for the run loop -/

theorem countEv_eq_zero_of_not_mem (e : LoopEvent) (l : List LoopEvent) (h : e ∉ l) :
    countEv e l = 0 := by
  induction l with
  | nil => rfl
  | cons x xs ih =>
    simp only [List.mem_cons, not_or] at h
    have hne : ¬ x = e := fun hx => h.1 hx.symm
    simp only [countEv, if_neg hne, ih h.2]

theorem runLoop_idx_ge (H : Nat → Except GoError (List Nat))
    (W : Nat → List Nat → Option GoError) :
    ∀ (fuel i : Nat) (ev : LoopEvent), ev ∈ (runLoop H W fuel i).1 → i ≤ ev.idx := by
  intro fuel
  induction fuel with
  | zero =>
    intro i ev h
    simp [runLoop] at h
  | succ f ih =>
    intro i ev h
    cases hH : H i with
    | error e =>
      simp only [runLoop, hH, List.mem_singleton] at h
      subst h
      exact Nat.le_refl i
    | ok resp =>
      cases hW : W i resp with
      | some e =>
        simp only [runLoop, hH, hW, List.mem_cons, List.mem_singleton,
          List.not_mem_nil, or_false] at h
        rcases h with h | h | h <;> (subst h; exact Nat.le_refl i)
      | none =>
        simp only [runLoop, hH, hW, List.mem_cons] at h
        rcases h with h | h | h | h
        · subst h; exact Nat.le_refl i
        · subst h; exact Nat.le_refl i
        · subst h; exact Nat.le_refl i
        · exact Nat.le_of_succ_le (ih (i + 1) ev h)

theorem runLoop_notify_count (H : Nat → Except GoError (List Nat))
    (W : Nat → List Nat → Option GoError) :
    ∀ (fuel i j : Nat),
    (∀ e, H j = Except.error e →
      countEv (LoopEvent.notifyCall j) (runLoop H W fuel i).1 = 0) ∧
    (∀ r, H j = Except.ok r → LoopEvent.handleCall j ∈ (runLoop H W fuel i).1 →
      countEv (LoopEvent.notifyCall j) (runLoop H W fuel i).1 = 1) ∧
    countEv (LoopEvent.notifyCall j) (runLoop H W fuel i).1 ≤ 1 := by
  intro fuel
  induction fuel with
  | zero =>
    intro i j
    refine ⟨fun e _ => rfl, fun r _ h => ?_, Nat.zero_le 1⟩
    simp [runLoop] at h
  | succ f ih =>
    intro i j
    cases hH : H i with
    | error e0 =>
      have htr : (runLoop H W (f + 1) i).1 = [LoopEvent.handleCall i] := by
        simp [runLoop, hH]
      rw [htr]
      have hcnt : countEv (LoopEvent.notifyCall j) [LoopEvent.handleCall i] = 0 := by
        simp [countEv]
      refine ⟨fun e _ => hcnt, fun r hr hm => ?_, by omega⟩
      simp only [List.mem_singleton, LoopEvent.handleCall.injEq] at hm
      subst hm
      rw [hH] at hr
      exact absurd hr (by simp)
    | ok resp =>
      cases hW : W i resp with
      | some e0 =>
        have htr : (runLoop H W (f + 1) i).1 =
            [LoopEvent.handleCall i, LoopEvent.notifyCall i, LoopEvent.writeCall i] := by
          simp [runLoop, hH, hW]
        rw [htr]
        by_cases hji : j = i
        · subst hji
          have hcnt : countEv (LoopEvent.notifyCall j)
              [LoopEvent.handleCall j, LoopEvent.notifyCall j, LoopEvent.writeCall j] = 1 := by
            simp [countEv]
          refine ⟨fun e he => ?_, fun r _ _ => hcnt, by omega⟩
          rw [hH] at he
          exact absurd he (by simp)
        · have hij : ¬ i = j := fun h => hji h.symm
          have hcnt : countEv (LoopEvent.notifyCall j)
              [LoopEvent.handleCall i, LoopEvent.notifyCall i, LoopEvent.writeCall i] = 0 := by
            simp [countEv, hij]
          refine ⟨fun e _ => hcnt, fun r hr hm => ?_, by omega⟩
          simp only [List.mem_cons, List.mem_singleton] at hm
          rcases hm with hm | hm | hm <;> simp_all
      | none =>
        have htr : (runLoop H W (f + 1) i).1 =
            LoopEvent.handleCall i :: LoopEvent.notifyCall i :: LoopEvent.writeCall i ::
              (runLoop H W f (i + 1)).1 := by
          simp [runLoop, hH, hW]
        rw [htr]
        by_cases hji : j = i
        · subst hji
          have hrest : countEv (LoopEvent.notifyCall j) (runLoop H W f (j + 1)).1 = 0 := by
            apply countEv_eq_zero_of_not_mem
            intro hmem
            have := runLoop_idx_ge H W f (j + 1) (LoopEvent.notifyCall j) hmem
            simp [LoopEvent.idx] at this
          have hcnt : countEv (LoopEvent.notifyCall j)
              (LoopEvent.handleCall j :: LoopEvent.notifyCall j :: LoopEvent.writeCall j ::
                (runLoop H W f (j + 1)).1) = 1 := by
            simp [countEv, hrest]
          refine ⟨fun e he => ?_, fun r _ _ => hcnt, by omega⟩
          rw [hH] at he
          exact absurd he (by simp)
        · have hij : ¬ i = j := fun h => hji h.symm
          have hji2 : LoopEvent.notifyCall i ≠ LoopEvent.notifyCall j := by
            simp [hij]
          have hcnt : countEv (LoopEvent.notifyCall j)
              (LoopEvent.handleCall i :: LoopEvent.notifyCall i :: LoopEvent.writeCall i ::
                (runLoop H W f (i + 1)).1) =
              countEv (LoopEvent.notifyCall j) (runLoop H W f (i + 1)).1 := by
            simp [countEv, hji2]
          rw [hcnt]
          refine ⟨fun e he => (ih (i + 1) j).1 e he, fun r hr hm => ?_, (ih (i + 1) j).2.2⟩
          have hm2 : LoopEvent.handleCall j ∈ (runLoop H W f (i + 1)).1 := by
            simp only [List.mem_cons] at hm
            rcases hm with hm | hm | hm | hm
            · exact absurd (by injection hm) hji
            · exact absurd hm (by simp)
            · exact absurd hm (by simp)
            · exact hm
          exact (ih (i + 1) j).2.1 r hr hm2

theorem runLoop_write_before_next (H : Nat → Except GoError (List Nat))
    (W : Nat → List Nat → Option GoError) :
    ∀ (fuel i n : Nat), i ≤ n →
    LoopEvent.handleCall (n + 1) ∈ (runLoop H W fuel i).1 →
    ∃ pre post, (runLoop H W fuel i).1 = pre ++ LoopEvent.writeCall n :: post ∧
      LoopEvent.handleCall (n + 1) ∈ post ∧
      LoopEvent.handleCall (n + 1) ∉ pre ∧
      LoopEvent.writeCall n ∉ post := by
  intro fuel
  induction fuel with
  | zero =>
    intro i n _ hmem
    simp [runLoop] at hmem
  | succ f ih =>
    intro i n hin hmem
    cases hH : H i with
    | error e0 =>
      rw [show (runLoop H W (f + 1) i).1 = [LoopEvent.handleCall i] from by simp [runLoop, hH]]
        at hmem
      simp only [List.mem_singleton, LoopEvent.handleCall.injEq] at hmem
      omega
    | ok resp =>
      cases hW : W i resp with
      | some e0 =>
        rw [show (runLoop H W (f + 1) i).1 =
            [LoopEvent.handleCall i, LoopEvent.notifyCall i, LoopEvent.writeCall i] from
          by simp [runLoop, hH, hW]] at hmem
        simp only [List.mem_cons, List.mem_singleton, List.not_mem_nil, or_false] at hmem
        rcases hmem with hm | hm | hm
        · have : n + 1 = i := by injection hm
          omega
        · exact absurd hm (by simp)
        · exact absurd hm (by simp)
      | none =>
        have htr : (runLoop H W (f + 1) i).1 =
            LoopEvent.handleCall i :: LoopEvent.notifyCall i :: LoopEvent.writeCall i ::
              (runLoop H W f (i + 1)).1 := by
          simp [runLoop, hH, hW]
        rw [htr] at hmem ⊢
        have hmem2 : LoopEvent.handleCall (n + 1) ∈ (runLoop H W f (i + 1)).1 := by
          simp only [List.mem_cons] at hmem
          rcases hmem with hm | hm | hm | hm
          · have : n + 1 = i := by injection hm
            omega
          · exact absurd hm (by simp)
          · exact absurd hm (by simp)
          · exact hm
        by_cases hieq : i = n
        · subst hieq
          refine ⟨[LoopEvent.handleCall i, LoopEvent.notifyCall i], (runLoop H W f (i + 1)).1,
            by simp, hmem2, ?_, ?_⟩
          · simp
          · intro hmem3
            have := runLoop_idx_ge H W f (i + 1) (LoopEvent.writeCall i) hmem3
            simp [LoopEvent.idx] at this
        · have hlt : i + 1 ≤ n := by omega
          obtain ⟨pre, post, heq, h1, h2, h3⟩ := ih (i + 1) n hlt hmem2
          refine ⟨LoopEvent.handleCall i :: LoopEvent.notifyCall i :: LoopEvent.writeCall i ::
            pre, post, ?_, h1, ?_, h3⟩
          · rw [heq]
            simp
          · intro hmem3
            simp only [List.mem_cons] at hmem3
            rcases hmem3 with hm | hm | hm | hm
            · have : n + 1 = i := by injection hm
              omega
            · exact absurd hm (by simp)
            · exact absurd hm (by simp)
            · exact h2 hm

/-! ## Claim theorems -/

/-- C1: for any sequence of incoming transport messages, repeated `Read`
calls with arbitrary positive caller-buffer sizes (enough calls to cover
every byte plus one fetch per message) return exactly the original byte
sequence in order and perform exactly one underlying message fetch per
message; each call copies `min(len(pendingBytes), len(callerBuffer))`
bytes, and no call with a non-nil pending buffer fetches a message. -/
theorem read_stream_reassembly (msgs : List (List Nat)) (sizes : List Nat)
    (hpos : ∀ k ∈ sizes, 1 ≤ k)
    (hlen : msgs.flatten.length + msgs.length ≤ sizes.length) :
    ((runRead (initialWsConn msgs) sizes).out = msgs.flatten ∧
     (runRead (initialWsConn msgs) sizes).fetched = msgs.length) ∧
    (∀ (wsc : websocketConn) (b : List Nat) (k : Nat), wsc.buf = some b →
      (wsc.Read k).1.n = min b.length k ∧ (wsc.Read k).1.fetched = 0) ∧
    (∀ (wsc : websocketConn) (m : List Nat) (rest : List (Except GoError (List Nat)))
      (k : Nat), wsc.buf = none → wsc.conn.incoming = Except.ok m :: rest →
      (wsc.Read k).1.n = min m.length k ∧ (wsc.Read k).1.fetched = 1) := by
  refine ⟨?_, ?_, ?_⟩
  · have h := runRead_drains sizes msgs (initialWsConn msgs)
      (by simp [initialWsConn, newWebsocketConn])
      (by simp [initialWsConn, newWebsocketConn])
      hpos
      (by simpa [initialWsConn, newWebsocketConn] using hlen)
    simpa [initialWsConn, newWebsocketConn] using h
  · intro wsc b k hb
    by_cases hgt : b.length > k
    · rw [read_buf_some_gt wsc b k hb hgt]
      exact ⟨by simp [Nat.min_eq_right (Nat.le_of_lt hgt)], rfl⟩
    · rw [read_buf_some_le wsc b k hb hgt]
      exact ⟨by simp [Nat.min_eq_left (Nat.le_of_not_lt hgt)], rfl⟩
  · intro wsc m rest k hb hin
    by_cases hgt : m.length > k
    · rw [read_fetch_gt wsc m rest k hb hin hgt]
      exact ⟨by simp [Nat.min_eq_right (Nat.le_of_lt hgt)], rfl⟩
    · rw [read_fetch_le wsc m rest k hb hin hgt]
      exact ⟨by simp [Nat.min_eq_left (Nat.le_of_not_lt hgt)], rfl⟩

/-- Witness for C1: four messages totalling 6 bytes (one empty), read
with ten 1-byte caller buffers: the bytes come back in order with exactly
4 fetches. -/
theorem read_stream_reassembly_check :
    (runRead (initialWsConn [[1, 2, 3], [4], [], [5, 6]]) (List.replicate 10 1)).out =
      [1, 2, 3, 4, 5, 6] ∧
    (runRead (initialWsConn [[1, 2, 3], [4], [], [5, 6]]) (List.replicate 10 1)).fetched = 4 := by
  have h := (read_stream_reassembly [[1, 2, 3], [4], [], [5, 6]] (List.replicate 10 1)
    (by decide) (by decide)).1
  exact ⟨h.1, h.2⟩

/-- C5: a successful `Write` of payload `p` sends exactly one discrete
text-typed transport message whose content is all of `p`, returns a byte
count of `len(p)`, and does not disturb the read side (no buffering of
multiple writes into one message: each successful call appends exactly
one message). -/
theorem write_single_text_message (wsc : websocketConn) (p : List Nat)
    (hok : (wsc.Write p).1.2 = none) :
    (wsc.Write p).1.1 = p.length ∧
    (wsc.Write p).2.conn.sent = wsc.conn.sent ++ [(MessageText, p)] ∧
    (wsc.Write p).2.buf = wsc.buf ∧
    (wsc.Write p).2.conn.incoming = wsc.conn.incoming := by
  cases hws : wsc.conn.writeScript with
  | nil => simp [websocketConn.Write, Conn.write, hws]
  | cons o rest =>
    cases o with
    | none => simp [websocketConn.Write, Conn.write, hws]
    | some e =>
      exfalso
      simp [websocketConn.Write, Conn.write, hws] at hok

/-- Witness for C5: writing `[10, 20]` on a fresh connection sends one
text message `[10, 20]` and returns 2. -/
theorem write_single_text_message_check :
    ((initialWsConn []).Write [10, 20]).1.1 = [10, 20].length ∧
    ((initialWsConn []).Write [10, 20]).2.conn.sent =
      (initialWsConn []).conn.sent ++ [(MessageText, [10, 20])] ∧
    ((initialWsConn []).Write [10, 20]).2.buf = (initialWsConn []).buf ∧
    ((initialWsConn []).Write [10, 20]).2.conn.incoming =
      (initialWsConn []).conn.incoming :=
  write_single_text_message (initialWsConn []) [10, 20] (by decide)

/-- C10: if the transport delivers a zero-length message while the
pending buffer is empty, `Read` returns byte count 0 with no error for
any caller buffer, and leaves the pending buffer empty. -/
theorem read_empty_message_zero_nil (wsc : websocketConn)
    (rest : List (Except GoError (List Nat))) (k : Nat)
    (h1 : wsc.buf = none) (h2 : wsc.conn.incoming = Except.ok [] :: rest) :
    (wsc.Read k).1.n = 0 ∧ (wsc.Read k).1.err = none ∧
    (wsc.Read k).1.delivered = [] ∧ (wsc.Read k).2.buf = none ∧
    (wsc.Read k).2.conn.incoming = rest := by
  have hk : ¬ ([] : List Nat).length > k := by simp
  rw [read_fetch_le wsc [] rest k h1 h2 hk]
  simp

/-- Witness for C10: a zero-length first message followed by `[7]`, read
with a 3-byte caller buffer. -/
theorem read_empty_message_zero_nil_check :
    ((initialWsConn [[], [7]]).Read 3).1.n = 0 ∧
    ((initialWsConn [[], [7]]).Read 3).1.err = none ∧
    ((initialWsConn [[], [7]]).Read 3).1.delivered = [] ∧
    ((initialWsConn [[], [7]]).Read 3).2.buf = none ∧
    ((initialWsConn [[], [7]]).Read 3).2.conn.incoming = [Except.ok [7]] :=
  read_empty_message_zero_nil (initialWsConn [[], [7]]) [Except.ok [7]] 3
    (by decide) (by decide)

/-- C2 (amended): on the internal-error path the connection is closed
with the internal-error status and a reason equal to the error's message
truncated to at most 125 bytes by plain byte slicing: a 500-byte message
yields exactly 125 bytes and a message of at most 125 bytes passes
through unaltered. -/
theorem internal_error_close_truncation (e : GoError) (co : Option GoError)
    (h : e.closeStatus = none) :
    TeardownEvent.closeFrame StatusInternalError (truncateCloseReason e.message) ∈
      serveTeardown e co ∧
    (truncateCloseReason e.message).length ≤ closeReasonMaxBytes ∧
    (e.message.length = 500 →
      (truncateCloseReason e.message).length = closeReasonMaxBytes) ∧
    (e.message.length ≤ closeReasonMaxBytes → truncateCloseReason e.message = e.message) := by
  refine ⟨?_, ?_, ?_, ?_⟩
  · simp [serveTeardown, h]
  · by_cases hl : e.message.length > closeReasonMaxBytes
    · simp only [truncateCloseReason, if_pos hl, List.length_take]
      omega
    · simp only [truncateCloseReason, if_neg hl]
      omega
  · intro h500
    have hl : e.message.length > closeReasonMaxBytes := by
      rw [h500]
      decide
    simp only [truncateCloseReason, if_pos hl, List.length_take]
    omega
  · intro hle
    have hl : ¬ e.message.length > closeReasonMaxBytes := by omega
    simp only [truncateCloseReason, if_neg hl]

set_option maxRecDepth 10000 in
/-- Witness for C2 (amended): a 500-byte error message yields a close
frame whose reason is exactly 125 bytes. -/
theorem internal_error_close_truncation_check :
    (truncateCloseReason (List.replicate 500 97)).length = closeReasonMaxBytes ∧
    TeardownEvent.closeFrame StatusInternalError (truncateCloseReason (List.replicate 500 97)) ∈
      serveTeardown { message := List.replicate 500 97, closeStatus := none } none := by
  have h := internal_error_close_truncation
    { message := List.replicate 500 97, closeStatus := none } none rfl
  exact ⟨h.2.2.1 (by simp), h.1⟩

/-- A valid-UTF-8 error message: 124 ASCII bytes then the two-byte
character U+00E9 (`0xC3 0xA9`), 126 bytes in all. -/
def utf8CexMsg : List Nat := List.replicate 124 97 ++ [0xC3, 0xA9]

set_option maxRecDepth 10000 in
/-- Counterexample for C2 as stated: the truncation is NOT UTF-8-safe.
The valid-UTF-8 message `utf8CexMsg` is cut after byte 125, splitting its
final character: the close reason sent on the wire ends in a lone `0xC3`
lead byte and is not valid UTF-8. -/
theorem close_reason_truncation_not_utf8_safe :
    isValidUtf8 utf8CexMsg = true ∧
    truncateCloseReason utf8CexMsg = List.replicate 124 97 ++ [0xC3] ∧
    isValidUtf8 (truncateCloseReason utf8CexMsg) = false ∧
    TeardownEvent.closeFrame StatusInternalError (List.replicate 124 97 ++ [0xC3]) ∈
      serveTeardown { message := utf8CexMsg, closeStatus := none } none := by
  refine ⟨by decide, by decide, by decide, by decide⟩

/-- A processing-core abstraction that succeeds on every cycle with an
empty response. -/
def alwaysOkHandler : Nat → Except GoError (List Nat) := fun _ => Except.ok []

/-- The write error used in the failed-write-cycle runs. -/
def failingWriteError : GoError := { message := [119], closeStatus := none }

/-- A write abstraction that fails every write with `failingWriteError`. -/
def alwaysFailWrite : Nat → List Nat → Option GoError := fun _ _ => some failingWriteError

/-- Counterexample for C3 as stated: on a cycle whose `HandleReader`
succeeds but whose response write fails, the loop has already invoked
`OnNewRequest` (the notification precedes the write in the source), so
the hook IS invoked once on that failed cycle, not zero times. -/
theorem notify_invoked_on_failed_write_cycle :
    (runLoop alwaysOkHandler alwaysFailWrite 1 0).2 = some failingWriteError ∧
    (runLoop alwaysOkHandler alwaysFailWrite 1 0).1 =
      [LoopEvent.handleCall 0, LoopEvent.notifyCall 0, LoopEvent.writeCall 0] ∧
    countEv (LoopEvent.notifyCall 0) (runLoop alwaysOkHandler alwaysFailWrite 1 0).1 = 1 := by
  refine ⟨by decide, by decide, by decide⟩

/-- C3 (amended): the Request Notification Hook is invoked exactly once
per cycle in which `HandleReader` produces a response — including a cycle
whose subsequent response write fails, since notification precedes the
write — zero times for a cycle in which `HandleReader` errors, and never
more than once per cycle. -/
theorem notify_exactly_once_per_handled_cycle (H : Nat → Except GoError (List Nat))
    (W : Nat → List Nat → Option GoError) (fuel i j : Nat) :
    (∀ e, H j = Except.error e →
      countEv (LoopEvent.notifyCall j) (runLoop H W fuel i).1 = 0) ∧
    (∀ r, H j = Except.ok r → LoopEvent.handleCall j ∈ (runLoop H W fuel i).1 →
      countEv (LoopEvent.notifyCall j) (runLoop H W fuel i).1 = 1) ∧
    countEv (LoopEvent.notifyCall j) (runLoop H W fuel i).1 ≤ 1 :=
  runLoop_notify_count H W fuel i j

/-- Witness for C3 (amended): the handled-but-write-failed cycle 0 gets
exactly one notification. -/
theorem notify_exactly_once_per_handled_cycle_check :
    countEv (LoopEvent.notifyCall 0) (runLoop alwaysOkHandler alwaysFailWrite 1 0).1 = 1 :=
  (notify_exactly_once_per_handled_cycle alwaysOkHandler alwaysFailWrite 1 0 0).2.1
    [] rfl (by decide)

/-- C4: when the loop terminates because the transport reports a
peer-initiated normal close handshake (`errors.As` recovers a close
error), the teardown is exactly one informational log carrying the
peer-reported status code — no close frame is sent, no warning or error
log happens, and `ServeHTTP` terminates. -/
theorem graceful_peer_close (e : GoError) (co : Option GoError) (s : Int)
    (h : e.closeStatus = some s) :
    serveTeardown e co = [TeardownEvent.infoClientClosed s] ∧
    (∀ (H : Nat → Except GoError (List Nat)) (W : Nat → List Nat → Option GoError)
      (fuel : Nat), (runLoop H W fuel 0).2 = some e →
      ServeHTTP H W fuel co = ((runLoop H W fuel 0).1, [TeardownEvent.infoClientClosed s])) := by
  constructor
  · simp [serveTeardown, h]
  · intro H W fuel hterm
    rcases hp : runLoop H W fuel 0 with ⟨evs, terr⟩
    rw [hp] at hterm
    simp only at hterm
    subst hterm
    simp [ServeHTTP, hp, serveTeardown, h]

/-- A processing-core abstraction that reports the peer's normal close
handshake on the first cycle. -/
def peerCloseHandler : Nat → Except GoError (List Nat) := fun _ => Except.error endOfStreamError

/-- Witness for C4: a peer close with status 1000 on cycle 0 ends
`ServeHTTP` with a single info log and no close frame. -/
theorem graceful_peer_close_check :
    serveTeardown endOfStreamError none = [TeardownEvent.infoClientClosed 1000] ∧
    ServeHTTP peerCloseHandler alwaysFailWrite 1 none =
      ([LoopEvent.handleCall 0], [TeardownEvent.infoClientClosed 1000]) := by
  have h := graceful_peer_close endOfStreamError none 1000 rfl
  have h2 := h.2 peerCloseHandler alwaysFailWrite 1 (by decide)
  exact ⟨h.1, h2.trans (by decide)⟩

/-- C6: every error arising in `Read` or `Write` is propagated unmodified
(the very same error value, not wrapped) up to the lifecycle manager, and
the first error from either the read/parse step or the write step exits
the loop at once — nothing further runs, no retry anywhere. -/
theorem errors_propagated_unmodified :
    (∀ (wsc : websocketConn) (e : GoError) (rest : List (Except GoError (List Nat))) (k : Nat),
      wsc.buf = none → wsc.conn.incoming = Except.error e :: rest →
      (wsc.Read k).1.err = some e ∧ (wsc.Read k).1.n = 0) ∧
    (∀ (wsc : websocketConn) (e : GoError) (rest : List (Option GoError)) (p : List Nat),
      wsc.conn.writeScript = some e :: rest →
      (wsc.Write p).1 = (0, some e)) ∧
    (∀ (H : Nat → Except GoError (List Nat)) (W : Nat → List Nat → Option GoError)
      (fuel i : Nat) (e : GoError), H i = Except.error e →
      runLoop H W (fuel + 1) i = ([LoopEvent.handleCall i], some e)) ∧
    (∀ (H : Nat → Except GoError (List Nat)) (W : Nat → List Nat → Option GoError)
      (fuel i : Nat) (r : List Nat) (e : GoError), H i = Except.ok r → W i r = some e →
      runLoop H W (fuel + 1) i =
        ([LoopEvent.handleCall i, LoopEvent.notifyCall i, LoopEvent.writeCall i], some e)) := by
  refine ⟨?_, ?_, ?_, ?_⟩
  · intro wsc e rest k hb hin
    rw [read_fetch_err wsc e rest k hb hin]
    exact ⟨rfl, rfl⟩
  · intro wsc e rest p hws
    simp [websocketConn.Write, Conn.write, hws]
  · intro H W fuel i e hH
    simp [runLoop, hH]
  · intro H W fuel i r e hH hW
    simp [runLoop, hH, hW]

/-- A sample non-close transport read error. -/
def readErrSample : GoError := { message := [114], closeStatus := none }

/-- An adapter whose transport fails the first fetch and the first write. -/
def errConn : websocketConn :=
  newWebsocketConn
    { incoming := [Except.error readErrSample], sent := [],
      writeScript := [some failingWriteError], readLimit := 0 }
    DefaultWebsocketConnParams

/-- Witness for C6: the concrete errors come back exactly as injected, and
each kind of first failure ends the loop at once. -/
theorem errors_propagated_unmodified_check :
    ((errConn.Read 4).1.err = some readErrSample ∧ (errConn.Read 4).1.n = 0) ∧
    (errConn.Write [9]).1 = (0, some failingWriteError) ∧
    runLoop peerCloseHandler alwaysFailWrite 3 0 =
      ([LoopEvent.handleCall 0], some endOfStreamError) ∧
    runLoop alwaysOkHandler alwaysFailWrite 3 0 =
      ([LoopEvent.handleCall 0, LoopEvent.notifyCall 0, LoopEvent.writeCall 0],
        some failingWriteError) := by
  have h := errors_propagated_unmodified
  exact ⟨h.1 errConn readErrSample [] 4 (by decide) (by decide),
         h.2.1 errConn failingWriteError [] [9] (by decide),
         h.2.2.1 peerCloseHandler alwaysFailWrite 2 0 endOfStreamError rfl,
         h.2.2.2 alwaysOkHandler alwaysFailWrite 2 0 [] failingWriteError rfl rfl⟩

/-- C7 (code bug): the defaults (32 MiB read limit, 5-second write
deadline) are strictly positive and installed by `NewWebsocket`, but
`WithConnParams` — whose own doc comment claims it "sanity checks and
applies the provided params" — applies any parameters verbatim with no
check at all: `ReadLimit = 0, WriteDuration = -1` is accepted, violating
the strict-positivity invariant the claim states. -/
theorem with_conn_params_unchecked :
    NewWebsocket.connParams = DefaultWebsocketConnParams ∧
    DefaultWebsocketConnParams.ReadLimit = 32 * 1024 * 1024 ∧
    DefaultWebsocketConnParams.WriteDuration = 5 * 1000000000 ∧
    0 < DefaultWebsocketConnParams.ReadLimit ∧
    0 < DefaultWebsocketConnParams.WriteDuration ∧
    (NewWebsocket.WithConnParams { ReadLimit := 0, WriteDuration := -1 }).connParams =
      { ReadLimit := 0, WriteDuration := -1 } ∧
    ¬ 0 < (NewWebsocket.WithConnParams
      { ReadLimit := 0, WriteDuration := -1 }).connParams.ReadLimit := by
  refine ⟨rfl, rfl, rfl, by decide, by decide, rfl, by decide⟩

/-- C8: when the internal-error close itself fails with the benign
"already wrote close" condition, no error-severity log is produced; any
other close failure is logged at error severity. -/
theorem already_closed_suppressed (e ce : GoError) (h : e.closeStatus = none) :
    (containsSeq alreadyWroteClose ce.message = true →
      ∀ ev ∈ serveTeardown e (some ce), isErrorLogEv ev = false) ∧
    (containsSeq alreadyWroteClose ce.message = false →
      TeardownEvent.errorCloseFailed ce.message ∈ serveTeardown e (some ce)) := by
  constructor
  · intro hc ev hev
    simp only [serveTeardown, h, hc, if_true, List.mem_cons, List.not_mem_nil,
      or_false] at hev
    rcases hev with h1 | h1 <;> (subst h1; rfl)
  · intro hc
    simp [serveTeardown, h, hc]

/-- The benign close failure whose message is exactly
"already wrote close". -/
def closeFailBenign : GoError := { message := alreadyWroteClose, closeStatus := none }

/-- Witness for C8: when the close failure's message is exactly
"already wrote close", the teardown events (here, the close frame it
contains) are all non-error-severity. -/
theorem already_closed_suppressed_check :
    isErrorLogEv (TeardownEvent.closeFrame StatusInternalError
      (truncateCloseReason failingWriteError.message)) = false :=
  (already_closed_suppressed failingWriteError closeFailBenign rfl).1 (by decide)
    (TeardownEvent.closeFrame StatusInternalError
      (truncateCloseReason failingWriteError.message))
    (by decide)

/-- C9: the run loop is strictly half-duplex: whenever request `n+1` is
read (its `handleCall` occurs in the trace), the trace splits around the
write of response `n` with the new read strictly after it — request `n+1`
is never read until response `n` has been fully written, and neither
event recurs on the other side of the split. -/
theorem half_duplex_no_pipelining (H : Nat → Except GoError (List Nat))
    (W : Nat → List Nat → Option GoError) (fuel n : Nat)
    (hmem : LoopEvent.handleCall (n + 1) ∈ (runLoop H W fuel 0).1) :
    ∃ pre post, (runLoop H W fuel 0).1 = pre ++ LoopEvent.writeCall n :: post ∧
      LoopEvent.handleCall (n + 1) ∈ post ∧
      LoopEvent.handleCall (n + 1) ∉ pre ∧
      LoopEvent.writeCall n ∉ post :=
  runLoop_write_before_next H W fuel 0 n (Nat.zero_le n) hmem

/-- A write abstraction that always succeeds. -/
def neverFailWrite : Nat → List Nat → Option GoError := fun _ _ => none

/-- Witness for C9: in a two-cycle all-success run, the read of request 1
happens strictly after the write of response 0. -/
theorem half_duplex_no_pipelining_check :
    ∃ pre post, (runLoop alwaysOkHandler neverFailWrite 2 0).1 =
        pre ++ LoopEvent.writeCall 0 :: post ∧
      LoopEvent.handleCall 1 ∈ post ∧
      LoopEvent.handleCall 1 ∉ pre ∧
      LoopEvent.writeCall 0 ∉ post :=
  half_duplex_no_pipelining alwaysOkHandler neverFailWrite 2 0 (by decide)
